import Mathlib

/-!
Verification of the status resolution and mapping subsystem of
`store/postgres/src/detail.rs`: the block-pointer validator, the
detail-row loader, the deployment name resolver, the status mapper
and the deployments-for-name lister.

The Rust code is shallowly embedded: the database connection is replaced
by an explicit in-memory database value (lists of rows); diesel queries
become list operations (join = flatMap over filters, `first` = head,
`order_by` = a stable sort); `Result` becomes `Except`; a Rust panic
(from `H256::from_slice` on a slice whose length is not 32) is made
explicit with the `Outcome` wrapper.
-/

/-- Result of running Rust code that may panic: `.abort` is a panic,
`.ret a` is normal return of `a`. -/
inductive Outcome (α : Type) : Type where
  | abort : Outcome α
  | ret (a : α) : Outcome α
deriving DecidableEq

/-- `true` iff the computation panicked. -/
def Outcome.isAbort {α : Type} : Outcome α → Bool
  | .abort => true
  | .ret _ => false

/-- `true` iff the computation returned normally with an `Ok` value. -/
def isOkOutcome {ε α : Type} : Outcome (Except ε α) → Bool
  | .ret (.ok _) => true
  | _ => false

/-- Sequencing of panic-or-error computations: a panic or an `Err`
short-circuits, mirroring Rust's `?` inside a possibly panicking
function. -/
def obind {ε α β : Type} : Outcome (Except ε α) → (α → Outcome (Except ε β)) →
    Outcome (Except ε β)
  | .abort, _ => .abort
  | .ret (.error e), _ => .ret (.error e)
  | .ret (.ok a), f => f a

/-- The errors of this subsystem (`StoreError` in the source): a
constraint violation carrying its message, or an opaque propagated
error carrying a message (used for the health parse failure, whose
payload here is the raw health string). -/
inductive StoreError : Type where
  | constraintViolation (msg : String) : StoreError
  | unknown (msg : String) : StoreError
deriving DecidableEq

/-- The view column `Numeric` holds arbitrary-precision non-negative
integers (spec §6), so `BigDecimal` values read from it are modelled as
arbitrary-precision integers. -/
abbrev BigDecimal := Int

/-- `bigdecimal::ToPrimitive::to_u64` on an integer value: `some` exactly
when the value fits in an unsigned 64-bit integer. -/
def BigDecimal.to_u64 (n : BigDecimal) : Option Nat :=
  if 0 ≤ n ∧ n < 18446744073709551616 then some n.toNat else none

/-- Converting a u64 back into a `BigDecimal`. -/
def BigDecimal.of_u64 (m : Nat) : BigDecimal := (m : Int)

/-- A byte string (`Vec<u8>` in the source). -/
abbrev Bytes := List Nat

/-- `H256::from_slice` (ethereum-types): copies a 32-byte slice into a
hash, and asserts — panics — when the slice length is not 32. -/
def H256.from_slice (l : Bytes) : Outcome Bytes :=
  if l.length = 32 then .ret l else .abort

/-- Debug rendering of an optional value, standing in for Rust's
`Option` debug format in error messages. -/
def optRepr {α : Type} [ToString α] : Option α → String
  | none => "None"
  | some a => "Some(" ++ toString a ++ ")"

namespace status

/-- `status::EthereumBlock`: a validated block pointer. -/
structure EthereumBlock where
  hash : Bytes
  number : Nat
deriving DecidableEq

/-- `status::ChainInfo`: network name plus the three optional validated
pointers. -/
structure ChainInfo where
  network : String
  chain_head_block : Option EthereumBlock
  earliest_block : Option EthereumBlock
  latest_block : Option EthereumBlock
deriving DecidableEq

end status

/-- `SubgraphHealth`: closed-vocabulary indexing state. -/
inductive SubgraphHealth : Type where
  | healthy : SubgraphHealth
  | failed : SubgraphHealth
  | unhealthy : SubgraphHealth
deriving DecidableEq

/-- Modelled from the spec: `SubgraphHealth::from_str` lives in the
`graph` crate (not under `src/`). Per spec §3/§4.4 the vocabulary is
closed — healthy / failed / unhealthy — and an unrecognized string fails
with a parse error naming the raw value; the error payload here is the
raw string itself. -/
def SubgraphHealth.from_str (s : String) : Except String SubgraphHealth :=
  match s with
  | "healthy" => .ok .healthy
  | "failed" => .ok .failed
  | "unhealthy" => .ok .unhealthy
  | _ => .error s

namespace status

/-- `status::Info`: the externally visible deployment status record. -/
structure Info where
  subgraph : String
  synced : Bool
  health : SubgraphHealth
  fatal_error : Option String
  non_fatal_errors : List String
  chains : List ChainInfo
  node : Option String
deriving DecidableEq

end status

/-- A row of the `subgraph_deployment_detail` view, with every column the
source maps (`struct Detail`). -/
structure Detail where
  vid : Int
  id : String
  manifest : String
  failed : Bool
  health : String
  synced : Bool
  fatal_error : Option String
  non_fatal_errors : List String
  earliest_ethereum_block_hash : Option Bytes
  earliest_ethereum_block_number : Option BigDecimal
  latest_ethereum_block_hash : Option Bytes
  latest_ethereum_block_number : Option BigDecimal
  entity_count : BigDecimal
  graft_base : Option String
  graft_block_hash : Option Bytes
  graft_block_number : Option BigDecimal
  ethereum_head_block_hash : Option Bytes
  ethereum_head_block_number : Option BigDecimal
  network : String
  node_id : Option String
deriving DecidableEq

/-- The inner `block` validator of `TryFrom<Detail> for status::Info`:
both present → parse hash (panics on a non-32-byte slice) and convert
the number to u64 (constraint violation when not representable); both
absent → no pointer; exactly one present → constraint violation. -/
def block (id name : String) (hash : Option Bytes) (number : Option BigDecimal) :
    Outcome (Except StoreError (Option status.EthereumBlock)) :=
  match hash, number with
  | some h, some n =>
    match H256.from_slice h with
    | .abort => .abort
    | .ret h32 =>
      match n.to_u64 with
      | none => .ret (.error (.constraintViolation
          ("the block number " ++ toString n ++ " for " ++ name ++ " in " ++ id ++
            " is not representable as a u64")))
      | some m => .ret (.ok (some { hash := h32, number := m }))
  | none, none => .ret (.ok none)
  | h, n => .ret (.error (.constraintViolation
      ("the hash and number of a block pointer must either both be null or both have a value, but for `"
        ++ id ++ "` the hash of " ++ name ++ " is `" ++ optRepr h ++
        "` and the number is `" ++ optRepr n ++ "`")))

/-- `TryFrom<Detail> for status::Info`: validate the chain-head, earliest
and latest pointers in that order, parse the health string, and assemble
the status record. -/
def status.Info.try_from (d : Detail) : Outcome (Except StoreError status.Info) :=
  obind (block d.id "ethereum_head_block" d.ethereum_head_block_hash
      d.ethereum_head_block_number) fun chain_head_block =>
  obind (block d.id "earliest_ethereum_block" d.earliest_ethereum_block_hash
      d.earliest_ethereum_block_number) fun earliest_block =>
  obind (block d.id "latest_ethereum_block" d.latest_ethereum_block_hash
      d.latest_ethereum_block_number) fun latest_block =>
  match SubgraphHealth.from_str d.health with
  | .error raw => .ret (.error (.unknown raw))
  | .ok health => .ret (.ok
      { subgraph := d.id
        synced := d.synced
        health := health
        fatal_error := none
        non_fatal_errors := []
        chains := [{ network := d.network
                     chain_head_block := chain_head_block
                     earliest_block := earliest_block
                     latest_block := latest_block }]
        node := d.node_id })

/-- Modelled from the spec: the `subgraphs.subgraph` table (declared in
`crate::metadata`, not under `src/`) — a named entity with its mutually
exclusive current / pending version pointers (spec §4.3, glossary). -/
structure Subgraph where
  id : String
  name : String
  current_version : Option String
  pending_version : Option String
deriving DecidableEq

/-- Modelled from the spec: the `subgraphs.subgraph_version` table
(declared in `crate::metadata`, not under `src/`) — a version row
belonging to a named entity, carrying its deployment identifier and
creation timestamp (spec §4.3, §4.5). -/
structure Version where
  id : String
  deployment : String
  created_at : Nat
  subgraph : String
deriving DecidableEq

/-- The database state visible to this subsystem: the two metadata
tables and the read-only detail view. -/
structure DB where
  subgraphs : List Subgraph
  versions : List Version
  details : List Detail

/-- The inner join `v::table.inner_join(s::table.on(v::subgraph.eq(s::id)))`
used by `deployments_for_subgraph`. -/
def joinVersionSubgraph (db : DB) : List (Version × Subgraph) :=
  db.versions.flatMap fun v =>
    (db.subgraphs.filter fun s => v.subgraph == s.id).map fun s => (v, s)

/-- `deployments_for_subgraph`: join versions to their named entity,
filter by name, order by version creation time ascending, and select the
deployment identifiers. -/
def deployments_for_subgraph (db : DB) (name : String) : List String :=
  (List.insertionSort (fun a b : Version × Subgraph => a.1.created_at ≤ b.1.created_at)
    ((joinVersionSubgraph db).filter fun p => p.2.name == name)).map
    fun p => p.1.deployment

/-- The `collect::<Result<Vec<_>, _>>` over `status::Info::try_from`:
maps rows in order, stopping at the first panic or error. -/
def mapTryFrom : List Detail → Outcome (Except StoreError (List status.Info))
  | [] => .ret (.ok [])
  | d :: ds =>
    obind (status.Info.try_from d) fun i =>
    obind (mapTryFrom ds) fun is => .ret (.ok (i :: is))

/-- `deployment_statuses`: an empty id list loads every row of the view,
a non-empty one loads exactly the rows whose id is in the list; each
loaded row is then mapped through `status::Info::try_from`. -/
def deployment_statuses (db : DB) (deployments : List String) :
    Outcome (Except StoreError (List status.Info)) :=
  if deployments.isEmpty then
    mapTryFrom db.details
  else
    mapTryFrom (db.details.filter fun d => deployments.contains d.id)

/-- The join of `subgraph_version` with `subgraph` on the selected
version pointer (`current_version` when `use_current`, otherwise
`pending_version`), as in the source's two branches. -/
def joinOnVersionPointer (db : DB) (use_current : Bool) : List (Version × Subgraph) :=
  db.versions.flatMap fun v =>
    (db.subgraphs.filter fun s =>
      (if use_current then s.current_version else s.pending_version) == some v.id).map
      fun s => (v, s)

/-- `subgraph_version`: select the deployment of the first version row
joined to the named entity through the chosen version pointer;
`first(...).optional()?.flatten()` becomes `head?` followed by `join`. -/
def subgraph_version (db : DB) (name : String) (use_current : Bool) : Option String :=
  ((((joinOnVersionPointer db use_current).filter fun p => p.2.name == name).map
    fun p => some p.1.deployment).head?).join

/-- C1: for every deployment id, field name and (hash, number) pair, the
block validator returns `Ok (some pointer)` built from the parsed hash
and number when both are present (the hash being 32 bytes and the number
in u64 range, as parsing presupposes), returns `Ok none` when both are
absent, and returns a `ConstraintViolation` when exactly one of the two
is present. -/
theorem block_validator_cases (id name : String) (hb : Bytes) (nb : BigDecimal)
    (hlen : hb.length = 32) (hlo : 0 ≤ nb) (hhi : nb < 18446744073709551616) :
    block id name (some hb) (some nb) =
      .ret (.ok (some { hash := hb, number := nb.toNat }))
    ∧ block id name none none = .ret (.ok none)
    ∧ (∃ m, block id name (some hb) none = .ret (.error (.constraintViolation m)))
    ∧ (∃ m, block id name none (some nb) = .ret (.error (.constraintViolation m))) := by
  refine ⟨?_, rfl, ⟨_, rfl⟩, ⟨_, rfl⟩⟩
  simp [block, H256.from_slice, hlen, BigDecimal.to_u64, hlo, hhi]

/-- Witness for C1 at a concrete 32-byte hash and the number 7. -/
theorem block_validator_cases_witness :
    (List.replicate 32 0).length = 32 ∧ (0 : BigDecimal) ≤ 7 ∧
      (7 : BigDecimal) < 18446744073709551616 ∧
    (block "Qm" "ethereum_head_block" (some (List.replicate 32 0)) (some 7) =
        .ret (.ok (some { hash := List.replicate 32 0, number := 7 }))
      ∧ block "Qm" "ethereum_head_block" none none = .ret (.ok none)
      ∧ (∃ m, block "Qm" "ethereum_head_block" (some (List.replicate 32 0)) none =
          .ret (.error (.constraintViolation m)))
      ∧ (∃ m, block "Qm" "ethereum_head_block" none (some 7) =
          .ret (.error (.constraintViolation m)))) :=
  ⟨by decide, by decide, by decide,
    block_validator_cases "Qm" "ethereum_head_block" (List.replicate 32 0) 7
      (by decide) (by decide) (by decide)⟩

/-- C2: with both hash and number present (hash 32 bytes), the validator
fails with a `ConstraintViolation` whenever the number exceeds the
unsigned 64-bit range, and for every number within that range the
conversion is lossless: decimal → u64 → decimal is the identity, and the
validator succeeds with exactly that number. -/
theorem block_number_u64_range (id name : String) (hb : Bytes) (nb : BigDecimal)
    (hlen : hb.length = 32) :
    (18446744073709551616 ≤ nb →
      ∃ m, block id name (some hb) (some nb) = .ret (.error (.constraintViolation m)))
    ∧ (0 ≤ nb → nb < 18446744073709551616 →
      BigDecimal.to_u64 nb = some nb.toNat ∧ BigDecimal.of_u64 nb.toNat = nb ∧
      block id name (some hb) (some nb) =
        .ret (.ok (some { hash := hb, number := nb.toNat }))) := by
  constructor
  · intro hge
    have hcond : ¬ (0 ≤ nb ∧ nb < 18446744073709551616) := fun h =>
      absurd hge (not_le.mpr h.2)
    simp [block, H256.from_slice, hlen, BigDecimal.to_u64, hcond]
  · intro hlo hhi
    refine ⟨?_, ?_, ?_⟩
    · simp [BigDecimal.to_u64, hlo, hhi]
    · simpa [BigDecimal.of_u64] using Int.toNat_of_nonneg hlo
    · simp [block, H256.from_slice, hlen, BigDecimal.to_u64, hlo, hhi]

/-- Witness for C2 at the out-of-range number 2^64 and the in-range
number 7. -/
theorem block_number_u64_range_witness :
    (∃ m, block "Qm" "latest_ethereum_block" (some (List.replicate 32 0))
        (some 18446744073709551616) = .ret (.error (.constraintViolation m)))
    ∧ (BigDecimal.to_u64 7 = some 7 ∧ BigDecimal.of_u64 7 = 7 ∧
      block "Qm" "latest_ethereum_block" (some (List.replicate 32 0)) (some 7) =
        .ret (.ok (some { hash := List.replicate 32 0, number := 7 }))) :=
  ⟨(block_number_u64_range "Qm" "latest_ethereum_block" (List.replicate 32 0)
      18446744073709551616 (by decide)).1 (by decide),
    (block_number_u64_range "Qm" "latest_ethereum_block" (List.replicate 32 0) 7
      (by decide)).2 (by decide) (by decide)⟩

/-- C10: the block validator is deterministic — two invocations with
equal id, field name, hash and number inputs return equal results; being
a pure function of its arguments in this embedding, it touches no
external state. -/
theorem block_deterministic (id1 name1 : String) (hash1 : Option Bytes)
    (num1 : Option BigDecimal) (id2 name2 : String) (hash2 : Option Bytes)
    (num2 : Option BigDecimal) (hid : id1 = id2) (hname : name1 = name2)
    (hhash : hash1 = hash2) (hnum : num1 = num2) :
    block id1 name1 hash1 num1 = block id2 name2 hash2 num2 := by
  subst hid; subst hname; subst hhash; subst hnum; rfl

/-- Witness for C10 at concrete equal inputs. -/
theorem block_deterministic_witness :
    block "a" "ethereum_head_block" none none =
      block "a" "ethereum_head_block" none none :=
  block_deterministic "a" "ethereum_head_block" none none "a"
    "ethereum_head_block" none none rfl rfl rfl rfl

/-- Inversion for `obind`: a normal `Ok` result means the first
computation returned `Ok` and the continuation did too. -/
theorem obind_eq_ret_ok {ε α β : Type} {x : Outcome (Except ε α)}
    {f : α → Outcome (Except ε β)} {b : β} (h : obind x f = .ret (.ok b)) :
    ∃ a, x = .ret (.ok a) ∧ f a = .ret (.ok b) := by
  cases x with
  | abort => simp [obind] at h
  | ret r =>
    cases r with
    | error e => simp [obind] at h
    | ok a => exact ⟨a, rfl, h⟩

/-- A true `isOkOutcome` exposes the `Ok` value. -/
theorem isOkOutcome_eq {ε α : Type} (x : Outcome (Except ε α))
    (h : isOkOutcome x = true) : ∃ a, x = .ret (.ok a) := by
  cases x with
  | abort => simp [isOkOutcome] at h
  | ret r =>
    cases r with
    | error e => simp [isOkOutcome] at h
    | ok a => exact ⟨a, rfl⟩

/-- Inversion of a successful `status::Info::try_from`: all three block
validations succeeded, the health string parsed, and the record is
exactly the assembled one. -/
theorem try_from_ok_inv (d : Detail) (i : status.Info)
    (h : status.Info.try_from d = .ret (.ok i)) :
    ∃ chb eb lb hv,
      block d.id "ethereum_head_block" d.ethereum_head_block_hash
        d.ethereum_head_block_number = .ret (.ok chb) ∧
      block d.id "earliest_ethereum_block" d.earliest_ethereum_block_hash
        d.earliest_ethereum_block_number = .ret (.ok eb) ∧
      block d.id "latest_ethereum_block" d.latest_ethereum_block_hash
        d.latest_ethereum_block_number = .ret (.ok lb) ∧
      SubgraphHealth.from_str d.health = .ok hv ∧
      i = { subgraph := d.id, synced := d.synced, health := hv,
            fatal_error := none, non_fatal_errors := [],
            chains := [{ network := d.network, chain_head_block := chb,
                         earliest_block := eb, latest_block := lb }],
            node := d.node_id } := by
  unfold status.Info.try_from at h
  obtain ⟨chb, h1, h⟩ := obind_eq_ret_ok h
  obtain ⟨eb, h2, h⟩ := obind_eq_ret_ok h
  obtain ⟨lb, h3, h⟩ := obind_eq_ret_ok h
  cases hfs : SubgraphHealth.from_str d.health with
  | error raw => rw [hfs] at h; simp at h
  | ok hv =>
    rw [hfs] at h
    simp only [Outcome.ret.injEq, Except.ok.injEq] at h
    exact ⟨chb, eb, lb, hv, h1, h2, h3, rfl, h.symm⟩

/-- On success, the record's subgraph field is the row's id. -/
theorem try_from_ok_subgraph (d : Detail) (i : status.Info)
    (h : status.Info.try_from d = .ret (.ok i)) : i.subgraph = d.id := by
  obtain ⟨_, _, _, _, _, _, _, _, hi⟩ := try_from_ok_inv d i h
  rw [hi]

/-- C9: every row that maps successfully yields a record with
`fatal_error` empty and `non_fatal_errors` the empty list regardless of
the row's columns, and a chains list of length exactly one holding the
row's network name and the three validated pointers. -/
theorem mapped_row_shape (d : Detail) (i : status.Info)
    (h : status.Info.try_from d = .ret (.ok i)) :
    i.fatal_error = none ∧ i.non_fatal_errors = [] ∧ i.chains.length = 1 ∧
    ∃ chb eb lb,
      block d.id "ethereum_head_block" d.ethereum_head_block_hash
        d.ethereum_head_block_number = .ret (.ok chb) ∧
      block d.id "earliest_ethereum_block" d.earliest_ethereum_block_hash
        d.earliest_ethereum_block_number = .ret (.ok eb) ∧
      block d.id "latest_ethereum_block" d.latest_ethereum_block_hash
        d.latest_ethereum_block_number = .ret (.ok lb) ∧
      i.chains = [{ network := d.network, chain_head_block := chb,
                    earliest_block := eb, latest_block := lb }] := by
  obtain ⟨chb, eb, lb, hv, h1, h2, h3, _, hi⟩ := try_from_ok_inv d i h
  subst hi
  exact ⟨rfl, rfl, rfl, chb, eb, lb, h1, h2, h3, rfl⟩

/-- A healthy detail row with no block pointers, used by witnesses. -/
def baseRow : Detail :=
  { vid := 0, id := "QmA", manifest := "m", failed := false,
    health := "healthy", synced := true, fatal_error := none,
    non_fatal_errors := [], earliest_ethereum_block_hash := none,
    earliest_ethereum_block_number := none,
    latest_ethereum_block_hash := none,
    latest_ethereum_block_number := none, entity_count := 0,
    graft_base := none, graft_block_hash := none,
    graft_block_number := none, ethereum_head_block_hash := none,
    ethereum_head_block_number := none, network := "mainnet",
    node_id := none }

/-- The status record `baseRow` maps to. -/
def baseInfo : status.Info :=
  { subgraph := "QmA", synced := true, health := .healthy,
    fatal_error := none, non_fatal_errors := [],
    chains := [{ network := "mainnet", chain_head_block := none,
                 earliest_block := none, latest_block := none }],
    node := none }

/-- Witness for C9 at `baseRow`. -/
theorem mapped_row_shape_witness :
    baseInfo.fatal_error = none ∧ baseInfo.non_fatal_errors = [] ∧
    baseInfo.chains.length = 1 ∧
    ∃ chb eb lb,
      block baseRow.id "ethereum_head_block" baseRow.ethereum_head_block_hash
        baseRow.ethereum_head_block_number = .ret (.ok chb) ∧
      block baseRow.id "earliest_ethereum_block"
        baseRow.earliest_ethereum_block_hash
        baseRow.earliest_ethereum_block_number = .ret (.ok eb) ∧
      block baseRow.id "latest_ethereum_block"
        baseRow.latest_ethereum_block_hash
        baseRow.latest_ethereum_block_number = .ret (.ok lb) ∧
      baseInfo.chains = [{ network := baseRow.network,
                           chain_head_block := chb, earliest_block := eb,
                           latest_block := lb }] :=
  mapped_row_shape baseRow baseInfo rfl

/-- An unrecognized health string falls through to the parse error that
carries the raw value. -/
theorem from_str_unrecognized (s : String) (h1 : s ≠ "healthy")
    (h2 : s ≠ "failed") (h3 : s ≠ "unhealthy") :
    SubgraphHealth.from_str s = .error s := by
  unfold SubgraphHealth.from_str
  split
  · exact absurd rfl h1
  · exact absurd rfl h2
  · exact absurd rfl h3
  · rfl

/-- C8: when the three block validations succeed, a row whose health
string is not one of healthy / failed / unhealthy fails with a parse
error naming the raw string, and for a recognized value the output's
health field equals the parsed enum value. -/
theorem health_parse_behavior (d : Detail)
    (hH : isOkOutcome (block d.id "ethereum_head_block"
      d.ethereum_head_block_hash d.ethereum_head_block_number) = true)
    (hE : isOkOutcome (block d.id "earliest_ethereum_block"
      d.earliest_ethereum_block_hash d.earliest_ethereum_block_number) = true)
    (hL : isOkOutcome (block d.id "latest_ethereum_block"
      d.latest_ethereum_block_hash d.latest_ethereum_block_number) = true) :
    (d.health ≠ "healthy" → d.health ≠ "failed" → d.health ≠ "unhealthy" →
      status.Info.try_from d = .ret (.error (.unknown d.health)))
    ∧ (∀ hv, SubgraphHealth.from_str d.health = .ok hv →
      ∃ i, status.Info.try_from d = .ret (.ok i) ∧ i.health = hv) := by
  obtain ⟨chb, hcb⟩ := isOkOutcome_eq _ hH
  obtain ⟨eb, heb⟩ := isOkOutcome_eq _ hE
  obtain ⟨lb, hlb⟩ := isOkOutcome_eq _ hL
  constructor
  · intro h1 h2 h3
    unfold status.Info.try_from
    rw [hcb, heb, hlb]
    simp only [obind]
    rw [from_str_unrecognized d.health h1 h2 h3]
  · intro hv hok
    unfold status.Info.try_from
    rw [hcb, heb, hlb]
    simp only [obind]
    rw [hok]
    exact ⟨_, rfl, rfl⟩

/-- A row with an unrecognizable health string, for the C8 witness. -/
def bogusHealthRow : Detail := { baseRow with id := "QmH", health := "bogus" }

/-- A row with health `failed`, for the C8 witness. -/
def failedHealthRow : Detail := { baseRow with id := "QmF", health := "failed" }

/-- Witness for C8: `bogus` is rejected with the raw string in the
error, `failed` parses and lands in the output's health field. -/
theorem health_parse_behavior_witness :
    status.Info.try_from bogusHealthRow = .ret (.error (.unknown "bogus"))
    ∧ (∃ i, status.Info.try_from failedHealthRow = .ret (.ok i) ∧
        i.health = SubgraphHealth.failed) :=
  ⟨(health_parse_behavior bogusHealthRow rfl rfl rfl).1
      (by decide) (by decide) (by decide),
    (health_parse_behavior failedHealthRow rfl rfl rfl).2
      SubgraphHealth.failed rfl⟩

/-- A row whose earliest-block hash is present with length 1 while its
number is absent. -/
def shortHashNoNumberRow : Detail :=
  { baseRow with id := "QmS", earliest_ethereum_block_hash := some [0] }

/-- Counterexample to C6 as stated: in this row a block hash is present
whose byte length is 1, not 32, yet mapping does not panic — the
mismatched pair is caught first and reported as an error return. -/
theorem hash_length_panic_counterexample :
    shortHashNoNumberRow.earliest_ethereum_block_hash = some [0] ∧
    ([0] : Bytes).length ≠ 32 ∧
    Outcome.isAbort (status.Info.try_from shortHashNoNumberRow) = false :=
  ⟨rfl, by decide, rfl⟩

/-- C6 (amended): when a block hash and its number are both present and
the hash's byte length is not 32, the validator — and with it the whole
row mapping, shown here for the chain-head field — panics
(`H256::from_slice` asserts the slice length); a wrong-length hash
whose number is absent instead returns a `ConstraintViolation`. -/
theorem hash_length_panic (d : Detail) (hb : Bytes) (nb : BigDecimal)
    (hhash : d.ethereum_head_block_hash = some hb)
    (hnum : d.ethereum_head_block_number = some nb)
    (hlen : hb.length ≠ 32) :
    block d.id "ethereum_head_block" (some hb) (some nb) = .abort ∧
    status.Info.try_from d = .abort ∧
    (∃ m, block d.id "ethereum_head_block" (some hb) none =
      .ret (.error (.constraintViolation m))) := by
  have hblk : block d.id "ethereum_head_block" (some hb) (some nb) = .abort := by
    simp [block, H256.from_slice, hlen]
  refine ⟨hblk, ?_, ⟨_, rfl⟩⟩
  unfold status.Info.try_from
  rw [hhash, hnum, hblk]
  rfl

/-- A row whose chain-head hash has length 2 with its number present. -/
def shortHashWithNumberRow : Detail :=
  { baseRow with
    id := "QmP"
    ethereum_head_block_hash := some [1, 2]
    ethereum_head_block_number := some 5 }

/-- Witness for the amended C6 at a 2-byte hash. -/
theorem hash_length_panic_witness :
    block "QmP" "ethereum_head_block" (some [1, 2]) (some 5) = .abort ∧
    status.Info.try_from shortHashWithNumberRow = .abort ∧
    (∃ m, block "QmP" "ethereum_head_block" (some [1, 2]) none =
      .ret (.error (.constraintViolation m))) :=
  hash_length_panic shortHashWithNumberRow [1, 2] 5 rfl rfl (by decide)

/-- When every row of a batch maps successfully, the collected result is
`Ok` and carries one record per row, in order, each echoing its row's
id. -/
theorem mapTryFrom_all_ok (rows : List Detail)
    (h : ∀ d ∈ rows, isOkOutcome (status.Info.try_from d) = true) :
    ∃ l, mapTryFrom rows = .ret (.ok l) ∧
      l.map status.Info.subgraph = rows.map Detail.id := by
  induction rows with
  | nil => exact ⟨[], rfl, rfl⟩
  | cons d ds ih =>
    obtain ⟨i, hi⟩ := isOkOutcome_eq _ (h d (by simp))
    obtain ⟨l, hl, hmap⟩ := ih fun d2 hd2 => h d2 (by simp [hd2])
    refine ⟨i :: l, ?_, ?_⟩
    · simp [mapTryFrom, hi, hl, obind]
    · simp [hmap, try_from_ok_subgraph d i hi]

/-- C3: with the rows of the view all mappable, an empty id set yields a
status record for every deployment row of the view; a non-empty set
yields exactly the rows whose identifier is in the set; and a singleton
set naming a nonexistent id yields the empty sequence without error. -/
theorem statuses_selection (db : DB) (ids : List String)
    (hok : ∀ d ∈ db.details, isOkOutcome (status.Info.try_from d) = true) :
    (∃ l, deployment_statuses db [] = .ret (.ok l) ∧
      l.map status.Info.subgraph = db.details.map Detail.id)
    ∧ (ids ≠ [] →
      ∃ l, deployment_statuses db ids = .ret (.ok l) ∧
        l.map status.Info.subgraph =
          (db.details.filter fun d => ids.contains d.id).map Detail.id)
    ∧ (∀ x, (∀ d ∈ db.details, d.id ≠ x) →
      deployment_statuses db [x] = .ret (.ok [])) := by
  refine ⟨?_, ?_, ?_⟩
  · obtain ⟨l, hl, hm⟩ := mapTryFrom_all_ok db.details hok
    exact ⟨l, by simpa [deployment_statuses] using hl, hm⟩
  · intro hne
    obtain ⟨l, hl, hm⟩ := mapTryFrom_all_ok
      (db.details.filter fun d => ids.contains d.id)
      fun d hd => hok d (List.mem_of_mem_filter hd)
    refine ⟨l, ?_, hm⟩
    have hemp : ids.isEmpty = false := by
      cases ids with
      | nil => exact absurd rfl hne
      | cons a l2 => rfl
    simpa [deployment_statuses, hemp] using hl
  · intro x hx
    have hfilter : (db.details.filter fun d => decide (d.id = x)) = [] := by
      rw [List.filter_eq_nil_iff]
      intro d hd
      simpa using hx d hd
    simp [deployment_statuses, hfilter, mapTryFrom]

/-- A second mappable row with a different id. -/
def secondRow : Detail := { baseRow with id := "QmB" }

/-- A two-row view for the C3 witness. -/
def twoRowDb : DB := { subgraphs := [], versions := [], details := [baseRow, secondRow] }

/-- Witness for C3 on a two-row view: the empty set returns both rows,
the set containing only `QmB` returns exactly that row, and a singleton
nonexistent id returns the empty sequence. -/
theorem statuses_selection_witness :
    (∃ l, deployment_statuses twoRowDb [] = .ret (.ok l) ∧
      l.map status.Info.subgraph = twoRowDb.details.map Detail.id)
    ∧ (∃ l, deployment_statuses twoRowDb ["QmB"] = .ret (.ok l) ∧
      l.map status.Info.subgraph =
        (twoRowDb.details.filter fun d =>
          (["QmB"] : List String).contains d.id).map Detail.id)
    ∧ deployment_statuses twoRowDb ["QmZ"] = .ret (.ok []) :=
  ⟨(statuses_selection twoRowDb ["QmB"] (by decide)).1,
    (statuses_selection twoRowDb ["QmB"] (by decide)).2.1 (by decide),
    (statuses_selection twoRowDb ["QmB"] (by decide)).2.2 "QmZ" (by decide)⟩

/-- C4: if every row before some row of the batch maps successfully and
that row's mapping fails with error `e`, then `deployment_statuses`
returns exactly `Err e` — no status records at all, and the rows after
the failing one are never reflected in the result. -/
theorem first_error_aborts_batch (db : DB) (pre post : List Detail)
    (bad : Detail) (e : StoreError) (hrows : db.details = pre ++ bad :: post)
    (hpre : ∀ d ∈ pre, isOkOutcome (status.Info.try_from d) = true)
    (hbad : status.Info.try_from bad = .ret (.error e)) :
    deployment_statuses db [] = .ret (.error e) := by
  have key : ∀ l : List Detail,
      (∀ d ∈ l, isOkOutcome (status.Info.try_from d) = true) →
      mapTryFrom (l ++ bad :: post) = .ret (.error e) := by
    intro l
    induction l with
    | nil => intro _; simp [mapTryFrom, hbad, obind]
    | cons d ds ih =>
      intro h
      obtain ⟨i, hi⟩ := isOkOutcome_eq _ (h d (by simp))
      simp [mapTryFrom, hi, obind, ih fun d2 hd2 => h d2 (by simp [hd2])]
  simpa [deployment_statuses, hrows] using key pre hpre

/-- A one-good-one-bad view for the C4 witness. -/
def goodBadDb : DB :=
  { subgraphs := [], versions := [], details := [baseRow, bogusHealthRow] }

/-- Witness for C4: the second row's unparsable health aborts the whole
batch with that row's error. -/
theorem first_error_aborts_batch_witness :
    deployment_statuses goodBadDb [] = .ret (.error (.unknown "bogus")) :=
  first_error_aborts_batch goodBadDb [baseRow] [] bogusHealthRow
    (.unknown "bogus") rfl (by decide) rfl

/-- Membership in the version-pointer join: a (version, subgraph) pair
appears exactly when both rows exist and the selected version pointer of
the subgraph points at the version. -/
theorem mem_joinOnVersionPointer {db : DB} {uc : Bool} {p : Version × Subgraph} :
    p ∈ joinOnVersionPointer db uc ↔
      p.1 ∈ db.versions ∧ p.2 ∈ db.subgraphs ∧
        (if uc then p.2.current_version else p.2.pending_version) = some p.1.id := by
  unfold joinOnVersionPointer
  constructor
  · intro hp
    obtain ⟨v, hv, hp2⟩ := List.mem_flatMap.mp hp
    obtain ⟨s, hsf, hps⟩ := List.mem_map.mp hp2
    obtain ⟨hs2, hsel⟩ := List.mem_filter.mp hsf
    rw [← hps]
    exact ⟨hv, hs2, by simpa using hsel⟩
  · rintro ⟨h1, h2, h3⟩
    refine List.mem_flatMap.mpr ⟨p.1, h1, ?_⟩
    refine List.mem_map.mpr ⟨p.2, ?_, rfl⟩
    exact List.mem_filter.mpr ⟨h2, by simpa using h3⟩

/-- C5: `subgraph_version` returns `none` when no entity with the name
exists, and `none` when the (unique) named entity's selected version
pointer is unset; when the selected pointer names an existing (unique)
version row it returns that version's deployment id; and with
`use_current = false` only the pending pointer is consulted — if every
pending pointer is unset the result is `none` no matter what the
current pointers hold. -/
theorem subgraph_version_resolution (db : DB) (name : String) :
    (∀ uc : Bool, (∀ s ∈ db.subgraphs, s.name ≠ name) →
      subgraph_version db name uc = none)
    ∧ (∀ uc : Bool, ∀ s ∈ db.subgraphs, s.name = name →
      (∀ s2 ∈ db.subgraphs, s2.name = name → s2 = s) →
      (if uc then s.current_version else s.pending_version) = none →
      subgraph_version db name uc = none)
    ∧ (∀ uc : Bool, ∀ s ∈ db.subgraphs, ∀ v ∈ db.versions, s.name = name →
      (∀ s2 ∈ db.subgraphs, s2.name = name → s2 = s) →
      (∀ v2 ∈ db.versions, v2.id = v.id → v2 = v) →
      (if uc then s.current_version else s.pending_version) = some v.id →
      subgraph_version db name uc = some v.deployment)
    ∧ ((∀ s ∈ db.subgraphs, s.pending_version = none) →
      subgraph_version db name false = none) := by
  refine ⟨?_, ?_, ?_, ?_⟩
  · intro uc hno
    have hfe : ((joinOnVersionPointer db uc).filter
        fun p => p.2.name == name) = [] := by
      rw [List.filter_eq_nil_iff]
      intro p hp
      have hs := (mem_joinOnVersionPointer.mp hp).2.1
      simpa using hno p.2 hs
    simp [subgraph_version, hfe]
  · intro uc s hs hname huniq hnone
    have hfe : ((joinOnVersionPointer db uc).filter
        fun p => p.2.name == name) = [] := by
      rw [List.filter_eq_nil_iff]
      intro p hp hpname
      obtain ⟨hpv, hps, hpsel⟩ := mem_joinOnVersionPointer.mp hp
      have hpeq : p.2 = s := huniq p.2 hps (by simpa using hpname)
      rw [hpeq, hnone] at hpsel
      cases hpsel
    simp [subgraph_version, hfe]
  · intro uc s hs v hv hname huniqS huniqV hsel
    set L := (joinOnVersionPointer db uc).filter fun p => p.2.name == name
      with hL
    have hmem : (v, s) ∈ L := by
      rw [hL]
      refine List.mem_filter.mpr ⟨?_, by simpa using hname⟩
      exact mem_joinOnVersionPointer.mpr ⟨hv, hs, hsel⟩
    have hall : ∀ p ∈ L, p = (v, s) := by
      intro p hp
      rw [hL] at hp
      obtain ⟨hpj, hpname⟩ := List.mem_filter.mp hp
      obtain ⟨hpv, hps, hpsel⟩ := mem_joinOnVersionPointer.mp hpj
      have hseq : p.2 = s := huniqS p.2 hps (by simpa using hpname)
      rw [hseq, hsel] at hpsel
      have hveq : p.1 = v := huniqV p.1 hpv (Option.some.inj hpsel).symm
      cases p
      simp only at hseq hveq
      rw [hseq, hveq]
    cases hLc : L with
    | nil => rw [hLc] at hmem; cases hmem
    | cons a rest =>
      have ha : a = (v, s) := hall a (by rw [hLc]; simp)
      simp [subgraph_version, ← hL, hLc, ha]
  · intro hpend
    have hje : joinOnVersionPointer db false = [] := by
      rw [List.eq_nil_iff_forall_not_mem]
      intro p hp
      obtain ⟨_, hps, hpsel⟩ := mem_joinOnVersionPointer.mp hp
      rw [hpend p.2 hps] at hpsel
      cases hpsel
    simp [subgraph_version, hje]

/-- The single named entity of the resolver witness database: current
version set to `v1`, pending version unset. -/
def resolveSub : Subgraph :=
  { id := "s1", name := "silver", current_version := some "v1",
    pending_version := none }

/-- The single version row of the resolver witness database. -/
def resolveVer : Version :=
  { id := "v1", deployment := "QmCur", created_at := 0, subgraph := "s1" }

/-- The resolver witness database. -/
def resolveDb : DB :=
  { subgraphs := [resolveSub], versions := [resolveVer], details := [] }

/-- Witness for C5: the current pointer resolves to `QmCur`, the unset
pending pointer resolves to `none` despite the set current pointer, and
an unknown name resolves to `none`. -/
theorem subgraph_version_resolution_witness :
    subgraph_version resolveDb "silver" true = some "QmCur" ∧
    subgraph_version resolveDb "silver" false = none ∧
    subgraph_version resolveDb "gold" true = none :=
  ⟨(subgraph_version_resolution resolveDb "silver").2.2.1 true resolveSub
      (by decide) resolveVer (by decide) rfl (by decide) (by decide) rfl,
    (subgraph_version_resolution resolveDb "silver").2.2.2 (by decide),
    (subgraph_version_resolution resolveDb "gold").1 true (by decide)⟩

/-- Membership in the versions-to-subgraphs join of the lister. -/
theorem mem_joinVersionSubgraph {db : DB} {p : Version × Subgraph} :
    p ∈ joinVersionSubgraph db ↔
      p.1 ∈ db.versions ∧ p.2 ∈ db.subgraphs ∧ p.1.subgraph = p.2.id := by
  unfold joinVersionSubgraph
  constructor
  · intro hp
    obtain ⟨v, hv, hp2⟩ := List.mem_flatMap.mp hp
    obtain ⟨s, hsf, hps⟩ := List.mem_map.mp hp2
    obtain ⟨hs2, hsel⟩ := List.mem_filter.mp hsf
    rw [← hps]
    exact ⟨hv, hs2, by simpa using hsel⟩
  · rintro ⟨h1, h2, h3⟩
    refine List.mem_flatMap.mpr ⟨p.1, h1, ?_⟩
    refine List.mem_map.mpr ⟨p.2, ?_, rfl⟩
    exact List.mem_filter.mpr ⟨h2, by simpa using h3⟩

/-- With subgraph ids unique, one version's contribution to the
name-filtered join is itself when some subgraph matches its foreign key
and the name, and nothing otherwise. -/
theorem join_contribution (v : Version) (nm : String) :
    ∀ subs : List Subgraph, (subs.map Subgraph.id).Nodup →
    ((((subs.filter fun s => v.subgraph == s.id).map fun s => (v, s)).filter
        fun p => p.2.name == nm).map Prod.fst) =
      if subs.any fun s => (v.subgraph == s.id) && (s.name == nm) then [v]
      else []
  | [], _ => rfl
  | a :: t, hids => by
    have hids2 := hids
    simp only [List.map_cons, List.nodup_cons] at hids2
    obtain ⟨ha, ht⟩ := hids2
    have ih := join_contribution v nm t ht
    by_cases hid : (v.subgraph == a.id) = true
    · have htf : (t.filter fun s => v.subgraph == s.id) = [] := by
        rw [List.filter_eq_nil_iff]
        intro s hsmem hsp
        apply ha
        have h1 : v.subgraph = s.id := by simpa using hsp
        have h2 : v.subgraph = a.id := by simpa using hid
        rw [h2.symm.trans h1]
        exact List.mem_map_of_mem Subgraph.id hsmem
      have hanyt : (t.any fun s => (v.subgraph == s.id) && (s.name == nm))
          = false := by
        rw [List.any_eq_false]
        intro s hsmem hsp
        simp only [Bool.and_eq_true] at hsp
        exact absurd hsp.1 (List.filter_eq_nil_iff.mp htf s hsmem)
      by_cases hnm : (a.name == nm) = true
      · simp [List.filter_cons, hid, hnm, htf, List.any_cons]
      · simp [List.filter_cons, hid, hnm, htf, List.any_cons, hanyt]
    · simp [List.filter_cons, hid, List.any_cons, ih]

/-- Summing the contributions over all versions turns the name-filtered
join into a plain filter over the versions table. -/
theorem flatMap_contribution_eq (subs : List Subgraph)
    (hids : (subs.map Subgraph.id).Nodup) (nm : String) :
    ∀ vers : List Version,
    (vers.flatMap fun v => List.map Prod.fst (List.filter
        (fun p => p.2.name == nm) (List.map (fun s => (v, s))
        (subs.filter fun s => v.subgraph == s.id)))) =
      vers.filter fun v => subs.any fun s =>
        (v.subgraph == s.id) && (s.name == nm)
  | [] => rfl
  | v :: vs => by
    rw [List.flatMap_cons, List.filter_cons, join_contribution v nm subs hids,
      flatMap_contribution_eq subs hids nm vs]
    by_cases hv : (subs.any fun s => (v.subgraph == s.id) && (s.name == nm))
        = true
    · simp [hv]
    · simp [hv]

/-- The deployments selected by the lister, before ordering, are exactly
the versions whose named entity matches, in table order. -/
theorem deployments_join_eq (db : DB) (nm : String)
    (hids : (db.subgraphs.map Subgraph.id).Nodup) :
    (((joinVersionSubgraph db).filter fun p => p.2.name == nm).map Prod.fst) =
      db.versions.filter fun v =>
        db.subgraphs.any fun s => (v.subgraph == s.id) && (s.name == nm) := by
  unfold joinVersionSubgraph
  rw [List.filter_flatMap, List.map_flatMap]
  exact flatMap_contribution_eq db.subgraphs hids nm db.versions

/-- C7: `deployments_for_subgraph` returns the deployment identifiers of
a list of versions that is a permutation — duplicates preserved — of all
versions joined to the named entity, arranged in ascending creation
time; for a name no version joins to, it returns the empty sequence. -/
theorem deployments_for_name_ordered (db : DB) (nm : String)
    (hids : (db.subgraphs.map Subgraph.id).Nodup) :
    (∃ vs : List Version,
      vs.Perm (db.versions.filter fun v =>
        db.subgraphs.any fun s => (v.subgraph == s.id) && (s.name == nm)) ∧
      vs.Pairwise (fun a b => a.created_at ≤ b.created_at) ∧
      deployments_for_subgraph db nm = vs.map Version.deployment)
    ∧ ((∀ v ∈ db.versions, ∀ s ∈ db.subgraphs, v.subgraph = s.id →
        s.name ≠ nm) →
      deployments_for_subgraph db nm = []) := by
  constructor
  · haveI : IsTotal (Version × Subgraph)
        (fun a b => a.1.created_at ≤ b.1.created_at) :=
      ⟨fun a b => Nat.le_total _ _⟩
    haveI : IsTrans (Version × Subgraph)
        (fun a b => a.1.created_at ≤ b.1.created_at) :=
      ⟨fun a b c hab hbc => Nat.le_trans hab hbc⟩
    refine ⟨(List.insertionSort
        (fun a b : Version × Subgraph => a.1.created_at ≤ b.1.created_at)
        ((joinVersionSubgraph db).filter fun p => p.2.name == nm)).map
        Prod.fst, ?_, ?_, ?_⟩
    · have hperm := (List.perm_insertionSort
        (fun a b : Version × Subgraph => a.1.created_at ≤ b.1.created_at)
        ((joinVersionSubgraph db).filter fun p => p.2.name == nm)).map Prod.fst
      rwa [deployments_join_eq db nm hids] at hperm
    · exact List.pairwise_map.mpr (List.sorted_insertionSort
        (fun a b : Version × Subgraph => a.1.created_at ≤ b.1.created_at)
        ((joinVersionSubgraph db).filter fun p => p.2.name == nm))
    · unfold deployments_for_subgraph
      rw [List.map_map]
      rfl
  · intro hnone
    have hfe : ((joinVersionSubgraph db).filter fun p => p.2.name == nm)
        = [] := by
      rw [List.filter_eq_nil_iff]
      intro p hp hpname
      obtain ⟨hv, hs, hsub⟩ := mem_joinVersionSubgraph.mp hp
      exact absurd (by simpa using hpname) (hnone p.1 hv p.2 hs hsub)
    unfold deployments_for_subgraph
    rw [hfe]
    rfl

/-- The named entity of the lister witness database. -/
def listSub : Subgraph :=
  { id := "s1", name := "metal", current_version := none,
    pending_version := none }

/-- The later of the two versions of the lister witness database; note
both carry the same deployment id. -/
def verLate : Version :=
  { id := "v2", deployment := "QmDup", created_at := 2, subgraph := "s1" }

/-- The earlier of the two versions of the lister witness database. -/
def verEarly : Version :=
  { id := "v1", deployment := "QmDup", created_at := 1, subgraph := "s1" }

/-- The lister witness database: versions stored newest first. -/
def listDb : DB :=
  { subgraphs := [listSub], versions := [verLate, verEarly], details := [] }

/-- Witness for C7 on a two-version entity with duplicate deployment
ids, and on a name with no versions. -/
theorem deployments_for_name_ordered_witness :
    (∃ vs : List Version,
      vs.Perm (listDb.versions.filter fun v =>
        listDb.subgraphs.any fun s =>
          (v.subgraph == s.id) && (s.name == "metal")) ∧
      vs.Pairwise (fun a b => a.created_at ≤ b.created_at) ∧
      deployments_for_subgraph listDb "metal" = vs.map Version.deployment)
    ∧ deployments_for_subgraph listDb "unknown" = [] :=
  ⟨(deployments_for_name_ordered listDb "metal" (by decide)).1,
    (deployments_for_name_ordered listDb "unknown" (by decide)).2 (by decide)⟩
